import Mathlib

/-!
Verification of the Label Studio to YOLO converter (main.go) against its
natural-language specification.

The Go program is shallowly embedded: pure string manipulation from the Go
standard library (strings.Fields, strings.TrimSpace, strings.ToLower,
strings.TrimSuffix, filepath.Ext, filepath.Join, filepath.Base,
strconv.Atoi, strconv.ParseFloat) is translated into executable Lean
functions over character lists; file-system state is passed explicitly
(walk listings, label-file contents, effect traces); the float64 train
fraction is modelled as an exact rational and parsed float values as exact
rationals extended with the IEEE special values NaN and the two infinities
(the model performs exact arithmetic, so float64 rounding at binary
granularity is below the granularity of this embedding); machine integers
are Int with the int64 range checks of strconv written out explicitly.
-/

namespace LS2YOLO

/-! ## Go standard library string primitives (shallow embedding) -/

/-- Whitespace predicate used by strings.Fields and strings.TrimSpace
(unicode.IsSpace restricted to the ASCII space characters, which is all the
label pipeline ever meets). -/
def isGoSpace (c : Char) : Bool :=
  c = ' ' || c = '\t' || c = '\n' || c = '\x0b' || c = '\x0c' || c = '\r'

/-- Accumulator-based splitter behind goFields: splits a character list on
runs of whitespace, returning the maximal non-space words in order. -/
def fieldsAux : List Char → List Char → List (List Char)
  | acc, [] => if acc.isEmpty then [] else [acc.reverse]
  | acc, c :: cs =>
    if isGoSpace c then
      if acc.isEmpty then fieldsAux [] cs else acc.reverse :: fieldsAux [] cs
    else fieldsAux (c :: acc) cs

/-- Embedding of strings.Fields: split around runs of whitespace, no empty
fields. -/
def goFields (s : String) : List String :=
  (fieldsAux [] s.toList).map String.mk

/-- Embedding of strings.TrimSpace: drop leading and trailing whitespace. -/
def goTrimSpace (s : String) : String :=
  String.mk (((s.toList.dropWhile isGoSpace).reverse.dropWhile isGoSpace).reverse)

/-- ASCII lowercase mapping used by strings.ToLower (the recognized image
extensions are pure ASCII, so the Unicode cases never fire here). -/
def lowerChar (c : Char) : Char :=
  if 'A' ≤ c ∧ c ≤ 'Z' then Char.ofNat (c.toNat + 32) else c

/-- Embedding of strings.ToLower. -/
def goToLower (s : String) : String :=
  String.mk (s.toList.map lowerChar)

/-- Embedding of strings.TrimSuffix: remove the suffix when present,
otherwise return the string unchanged. -/
def goTrimSuffix (s suffix : String) : String :=
  if suffix.toList.isSuffixOf s.toList then
    String.mk (s.toList.take (s.toList.length - suffix.toList.length))
  else s

/-- Embedding of filepath.Ext: the suffix of the final path element starting
at (and including) the final dot; empty when there is no dot. -/
def goExt (name : String) : String :=
  let rec lastDotSuffix : List Char → Option (List Char)
    | [] => none
    | c :: cs =>
      match lastDotSuffix cs with
      | some r => some r
      | none => if c = '.' ∧ ¬ cs.contains '/' then some (c :: cs) else none
  match lastDotSuffix name.toList with
  | some r => String.mk r
  | none => ""

/-- Embedding of filepath.Join for two components (slash separator; the
pipeline only joins plain relative components). -/
def goJoin (a b : String) : String := a ++ "/" ++ b

/-- Embedding of filepath.Base: the final slash-separated path element. -/
def goBase (p : String) : String :=
  let rec afterLastSlash : List Char → List Char
    | [] => []
    | c :: cs =>
      if cs.contains '/' ∨ c = '/' then afterLastSlash cs else c :: cs
  String.mk (afterLastSlash p.toList)

/-! ## strconv.Atoi and strconv.ParseFloat (shallow embedding) -/

/-- ASCII digit predicate. -/
def isDigitChar (c : Char) : Bool := '0' ≤ c ∧ c ≤ '9'

/-- Value of a decimal digit string (most significant first). -/
def digitsToNat (ds : List Char) : Nat :=
  ds.foldl (fun a c => a * 10 + (c.toNat - '0'.toNat)) 0

/-- Embedding of strconv.Atoi: optional sign, one or more decimal digits
consuming the whole string, rejected outside the int64 range (strconv
returns ErrRange there, which the caller treats as a parse failure). -/
def goAtoi (s : String) : Option Int :=
  let withSign : Bool × List Char :=
    match s.toList with
    | '+' :: r => (false, r)
    | '-' :: r => (true, r)
    | r => (false, r)
  let ds := withSign.2
  if ds.isEmpty ∨ ¬ ds.all isDigitChar then none
  else
    let v : Int := if withSign.1 then -(digitsToNat ds : Int) else (digitsToNat ds : Int)
    if v < -(2 ^ 63) ∨ (2 ^ 63 - 1 : Int) < v then none else some v

/-- Result of strconv.ParseFloat as the pipeline observes it: an exact
rational value written num / den (den always a positive power of ten), or
one of the IEEE special values. -/
inductive GoFloat where
  | finite (num : Int) (den : Nat) : GoFloat
  | posInf : GoFloat
  | negInf : GoFloat
  | nan : GoFloat
  deriving DecidableEq, Repr

/-- Go comparison coord < 0 on a parsed value; false on NaN because every
IEEE comparison with NaN is false. -/
def GoFloat.ltZero : GoFloat → Bool
  | .finite n _ => n < 0
  | .negInf => true
  | .posInf => false
  | .nan => false

/-- Go comparison coord > 1 on a parsed value; false on NaN. -/
def GoFloat.gtOne : GoFloat → Bool
  | .finite n d => (d : Int) < n
  | .negInf => false
  | .posInf => true
  | .nan => false

/-- Spec-side predicate: the parsed value is a finite number inside the
closed interval from 0 to 1. -/
def GoFloat.finiteInUnit : GoFloat → Bool
  | .finite n d => 0 ≤ n ∧ n ≤ (d : Int)
  | _ => false

/-- Case-insensitive comparison of a character list against an ASCII word. -/
def lowerEq (cs : List Char) (w : List Char) : Bool :=
  cs.map lowerChar = w

/-- Mantissa and exponent parser behind goParseFloat: digits, optional dot
plus digits, optional exponent part, consuming the whole input; returns the
exact value as numerator and positive power-of-ten denominator. -/
def parseDecCore (cs : List Char) : Option (Nat × Nat) :=
  let ipSplit := cs.span isDigitChar
  let ip := ipSplit.1
  let fpSplit : List Char × List Char :=
    match ipSplit.2 with
    | '.' :: r => r.span isDigitChar
    | r => ([], r)
  let fp := fpSplit.1
  if ip.isEmpty ∧ fp.isEmpty then none
  else
    let mant := digitsToNat (ip ++ fp)
    let frac := fp.length
    match fpSplit.2 with
    | [] => some (mant, 10 ^ frac)
    | e :: r =>
      if e = 'e' ∨ e = 'E' then
        let esplit : Bool × List Char :=
          match r with
          | '+' :: r2 => (false, r2)
          | '-' :: r2 => (true, r2)
          | r2 => (false, r2)
        let ed := esplit.2
        if ed.isEmpty ∨ ¬ ed.all isDigitChar then none
        else
          let ev : Int := if esplit.1 then -(digitsToNat ed : Int) else (digitsToNat ed : Int)
          let shift : Int := ev - (frac : Int)
          if 0 ≤ shift then some (mant * 10 ^ shift.toNat, 1)
          else some (mant, 10 ^ (-shift).toNat)
      else none

/-- Embedding of strconv.ParseFloat (64-bit) for the decimal grammar plus
the special values: NaN (unsigned), Inf and Infinity (optionally signed),
all matched ignoring case. The numeric value is kept exact rather than
rounded to binary; hexadecimal literals and digit-separating underscores of
the full Go grammar are not modelled (the label format never contains
them). -/
def goParseFloat (s : String) : Option GoFloat :=
  let cs := s.toList
  if lowerEq cs ['n', 'a', 'n'] then some .nan
  else
    let signSplit : Bool × List Char :=
      match cs with
      | '+' :: r => (false, r)
      | '-' :: r => (true, r)
      | r => (false, r)
    let neg := signSplit.1
    let rest := signSplit.2
    if lowerEq rest ['i', 'n', 'f'] ∨
        lowerEq rest ['i', 'n', 'f', 'i', 'n', 'i', 't', 'y'] then
      some (if neg then .negInf else .posInf)
    else
      match parseDecCore rest with
      | some (num, den) =>
          some (.finite (if neg then -(num : Int) else (num : Int)) den)
      | none => none

/-! ## Data model (main.go) -/

/-- Embedding of LabelPair: an image-label file pair. -/
structure LabelPair where
  ImagePath : String
  LabelPath : String
  deriving DecidableEq, Repr

/-- Embedding of Config. TrainSplit is the float64 train fraction, modelled
as an exact rational; Seed is the int64 random seed. -/
structure Config where
  SourceDir : String
  OutputDir : String
  TrainSplit : ℚ
  Seed : Int

/-- Embedding of ValidationStats. -/
structure ValidationStats where
  totalFiles : Nat
  totalAnnotations : Nat
  filesWithAnnotations : Nat
  emptyFiles : Nat
  invalidLines : Nat
  deriving DecidableEq, Repr

/-- Pointwise addition of statistics, used to model the counter increments
of the validation loop. -/
def statsAdd (a b : ValidationStats) : ValidationStats :=
  { totalFiles := a.totalFiles + b.totalFiles
    totalAnnotations := a.totalAnnotations + b.totalAnnotations
    filesWithAnnotations := a.filesWithAnnotations + b.filesWithAnnotations
    emptyFiles := a.emptyFiles + b.emptyFiles
    invalidLines := a.invalidLines + b.invalidLines }

/-! ## ValidateLabels (main.go lines 294-371) -/

/-- Observable outcome of opening and scanning one label file: the open can
fail, or the file yields its scanned lines together with a flag recording
whether bufio.Scanner reported a read error at the end. -/
inductive GoFile where
  | openErr : GoFile
  | content (lines : List String) (scanErr : Bool) : GoFile

/-- Coordinate loop of ValidateLabels over tokens 1 to 4: parse each with
strconv.ParseFloat and reject values below 0 or above 1; the first failing
token breaks out of the loop. -/
def coordsOk : List String → Bool
  | [] => true
  | t :: ts =>
    match goParseFloat t with
    | none => false
    | some v => if v.ltZero || v.gtOne then false else coordsOk ts

/-- Per-line contribution of the ValidateLabels scan loop, returned as the
pair (valid-line increment, invalid-line increment): trim; skip blank lines;
require exactly 5 whitespace fields; require token 0 to pass strconv.Atoi;
run the coordinate loop on tokens 1 to 4. -/
def lineDelta (raw : String) : Nat × Nat :=
  let line := goTrimSpace raw
  if line = "" then (0, 0)
  else
    let parts := goFields line
    if parts.length ≠ 5 then (0, 1)
    else if (goAtoi (parts.getD 0 "")).isNone then (0, 1)
    else if coordsOk (parts.drop 1) then (1, 0)
    else (0, 1)

/-- Per-file contribution of ValidateLabels: a failed open adds one invalid
line; otherwise the scanned lines contribute their valid and invalid counts,
and a scanner error at the end adds one more invalid line and skips the
annotation and file counters, while a clean scan adds the valid-line count
to total annotations and classifies the file as annotated or empty. -/
def fileDelta : GoFile → ValidationStats
  | .openErr =>
      { totalFiles := 0, totalAnnotations := 0, filesWithAnnotations := 0
        emptyFiles := 0, invalidLines := 1 }
  | .content lines scanErr =>
      let counts := lines.foldl
        (fun (a : Nat × Nat) ln => let d := lineDelta ln; (a.1 + d.1, a.2 + d.2)) (0, 0)
      if scanErr then
        { totalFiles := 0, totalAnnotations := 0, filesWithAnnotations := 0
          emptyFiles := 0, invalidLines := counts.2 + 1 }
      else
        { totalFiles := 0, totalAnnotations := counts.1
          filesWithAnnotations := if 0 < counts.1 then 1 else 0
          emptyFiles := if counts.1 = 0 then 1 else 0
          invalidLines := counts.2 }

/-- Embedding of ValidateLabels: statistics start with TotalFiles set to the
number of records, then the loop over records folds in each file
contribution; labelFile gives the file-system outcome per label path. -/
def ValidateLabels (labelFile : String → GoFile) (pairs : List LabelPair) :
    ValidationStats :=
  pairs.foldl (fun st p => statsAdd st (fileDelta (labelFile p.LabelPath)))
    { totalFiles := pairs.length, totalAnnotations := 0
      filesWithAnnotations := 0, emptyFiles := 0, invalidLines := 0 }

/-- The Go signature of ValidateLabels returns a stats pointer and an error;
every return path in the function body returns a nil error, which this
wrapper records as the always-none second component. -/
def ValidateLabelsGo (labelFile : String → GoFile) (pairs : List LabelPair) :
    ValidationStats × Option String :=
  (ValidateLabels labelFile pairs, none)

/-! ## SplitDataset (main.go lines 188-207) -/

/-- Models the seeded generator of math/rand (external standard-library
code): the pipeline relies only on it being a pure deterministic function of
the int64 seed with draws inside the requested bound, which this 64-bit
linear congruential generator provides. The initial state is the seed
reduced to 64 bits. -/
def rngInit (seed : Int) : Nat := (seed.emod (2 ^ 64)).toNat

/-- One generator step (64-bit linear congruential update). -/
def rngStep (s : Nat) : Nat :=
  (s * 6364136223846793005 + 1442695040888963407) % 2 ^ 64

/-- Models the bounded draw Intn of math/rand from the current state: a
value in the half-open range from 0 to bound. -/
def rngIntn (s : Nat) (bound : Nat) : Nat := s % bound

/-- In-place element swap of the rand.Shuffle callback: shuffled[i],
shuffled[j] = shuffled[j], shuffled[i]. Out-of-range indices leave the list
unchanged (they never occur in the shuffle). -/
def swapList {α : Type} (l : List α) (i j : Nat) : List α :=
  match l[i]?, l[j]? with
  | some a, some b => (l.set i b).set j a
  | _, _ => l

/-- Index sequence of the rand.Shuffle Fisher-Yates loop: i runs from n - 1
down to 1. -/
def shuffleIdx (n : Nat) : List Nat := (List.range' 1 (n - 1)).reverse

/-- Embedding of the rand.Shuffle call on a copied slice: seed the
generator, then for i from n - 1 down to 1 draw j in the closed range 0 to i
and swap positions i and j. -/
def goShuffle {α : Type} (seed : Int) (l : List α) : List α :=
  ((shuffleIdx l.length).foldl
    (fun (st : List α × Nat) i =>
      let g := rngStep st.2
      (swapList st.1 i (rngIntn g (i + 1)), g))
    (l, rngInit seed)).1

/-- Go conversion int(x) on a float64: truncation toward zero. -/
def goTrunc (q : ℚ) : Int := if 0 ≤ q then ⌊q⌋ else ⌈q⌉

/-- Embedding of SplitDataset: shuffle a copy of the record list with the
seeded generator, compute trainCount as int(len * TrainSplit), and slice
into the first trainCount records (train) and the rest (val). The none
result models the Go runtime panic raised when the slice bound trainCount
lies outside the closed range 0 to len. -/
def SplitDataset (f : ℚ) (seed : Int) (pairs : List LabelPair) :
    Option (List LabelPair × List LabelPair) :=
  let shuffled := goShuffle seed pairs
  let trainCount := goTrunc ((shuffled.length : ℚ) * f)
  if 0 ≤ trainCount ∧ trainCount ≤ (shuffled.length : Int) then
    some (shuffled.take trainCount.toNat, shuffled.drop trainCount.toNat)
  else none

/-- SplitDataset as the Converter method: reads only TrainSplit and Seed
from the configuration. -/
def SplitDatasetC (c : Config) (pairs : List LabelPair) :
    Option (List LabelPair × List LabelPair) :=
  SplitDataset c.TrainSplit c.Seed pairs

/-- Memory state of SplitDataset: the slice owned by the caller and the
freshly allocated shuffled slice that copy(shuffled, pairs) initializes. -/
structure SplitMem where
  caller : List LabelPair
  shuffled : List LabelPair

/-- One iteration of the shuffle loop on the memory state: the swap closure
writes only the shuffled buffer. -/
def splitSwapStep (st : SplitMem × Nat) (i : Nat) : SplitMem × Nat :=
  let g := rngStep st.2
  ({ st.1 with shuffled := swapList st.1.shuffled i (rngIntn g (i + 1)) }, g)

/-- SplitDataset with the caller-visible memory made explicit: returns the
final memory state (in particular the slice the caller passed in, as it
stands after the call) together with the function result. -/
def splitDatasetMem (f : ℚ) (seed : Int) (pairs : List LabelPair) :
    SplitMem × Option (List LabelPair × List LabelPair) :=
  let init : SplitMem := { caller := pairs, shuffled := pairs }
  let m := ((shuffleIdx pairs.length).foldl splitSwapStep (init, rngInit seed)).1
  let trainCount := goTrunc ((m.shuffled.length : ℚ) * f)
  (m,
    if 0 ≤ trainCount ∧ trainCount ≤ (m.shuffled.length : Int) then
      some (m.shuffled.take trainCount.toNat, m.shuffled.drop trainCount.toNat)
    else none)

/-! ## GetImageLabelPairs (main.go lines 134-185) -/

/-- One entry delivered by the filepath.Walk of the images directory. -/
structure WalkEntry where
  path : String
  name : String
  isDir : Bool
  deriving DecidableEq, Repr

/-- The fixed recognized extension set of GetImageLabelPairs. -/
def imageExtensions (ext : String) : Bool :=
  ext = ".jpg" ∨ ext = ".jpeg" ∨ ext = ".png" ∨ ext = ".bmp" ∨
    ext = ".tiff" ∨ ext = ".webp"

/-- Walk-callback body of GetImageLabelPairs for one entry: skip
directories; lowercase the extension and test membership in the recognized
set; strip that lowercased extension from the file name to get the base
name; record the pair when labels/<base>.txt exists, otherwise skip the
image with a warning. -/
def pairOfEntry (labelsDir : String) (labelExists : String → Bool)
    (e : WalkEntry) : Option LabelPair :=
  if e.isDir then none
  else
    let ext := goToLower (goExt e.name)
    if ¬ imageExtensions ext then none
    else
      let baseName := goTrimSuffix e.name ext
      let labelPath := goJoin labelsDir (baseName ++ ".txt")
      if labelExists labelPath then
        some { ImagePath := e.path, LabelPath := labelPath }
      else none

/-- Embedding of GetImageLabelPairs: the pairs collected over the walk of
the images directory, in walk order. -/
def GetImageLabelPairs (labelsDir : String) (labelExists : String → Bool)
    (walk : List WalkEntry) : List LabelPair :=
  walk.filterMap (pairOfEntry labelsDir labelExists)

/-! ## Output effects, CreateYAMLConfig, Convert (main.go lines 209-437) -/

/-- File-system write effects the pipeline can perform, in program order. -/
inductive Effect where
  | mkdirAll (path : String)
  | copyFile (src dst : String)
  | writeFile (path content : String)
  deriving DecidableEq, Repr

/-- Error taxonomy of the pipeline. panicSliceBound models the Go runtime
panic of an out-of-range slice bound in SplitDataset (not an error return in
Go, but equally a non-success outcome of the run). -/
inductive ConvErr where
  | missingInput (path : String)
  | ioFailure (path : String)
  | emptyDataset
  | panicSliceBound
  deriving DecidableEq, Repr

/-- The source tree as the pipeline observes it: existence of the required
entries, the classes.txt lines (none models an open or read failure), the
walk of the images directory, label-path existence, and per-label-file read
outcomes. -/
structure InputTree where
  hasImagesDir : Bool
  hasLabelsDir : Bool
  hasClassesFile : Bool
  classesRead : Option (List String)
  walk : List WalkEntry
  labelExists : String → Bool
  labelFile : String → GoFile

/-- Embedding of ValidateSourceStructure: report the first missing required
entry among images/, labels/ and classes.txt. -/
def ValidateSourceStructure (c : Config) (t : InputTree) : Option ConvErr :=
  if ¬ t.hasImagesDir then some (.missingInput (goJoin c.SourceDir "images"))
  else if ¬ t.hasLabelsDir then some (.missingInput (goJoin c.SourceDir "labels"))
  else if ¬ t.hasClassesFile then
    some (.missingInput (goJoin c.SourceDir "classes.txt"))
  else none

/-- Embedding of LoadClasses: trim each line of classes.txt and keep the
non-blank ones in order. -/
def LoadClasses (c : Config) (t : InputTree) : Except ConvErr (List String) :=
  match t.classesRead with
  | none => .error (.ioFailure (goJoin c.SourceDir "classes.txt"))
  | some lines => .ok ((lines.map goTrimSpace).filter (fun l => l ≠ ""))

/-- Decimal digit character. -/
def digitChar (n : Nat) : Char := Char.ofNat ('0'.toNat + n)

/-- Fuel-driven decimal rendering of a natural number (fuel is always
sufficient at the call site). -/
def natToStrAux : Nat → Nat → List Char
  | 0, _ => []
  | fuel + 1, n =>
    if n < 10 then [digitChar n]
    else natToStrAux fuel (n / 10) ++ [digitChar (n % 10)]

/-- Decimal rendering of a natural number. -/
def natToStr (n : Nat) : String := String.mk (natToStrAux (n + 1) n)

/-- Models filepath.Abs under a fixed working directory: an absolute path is
returned unchanged, a relative one is anchored at the working directory.
Both runs compared by the idempotence property share one working
directory. -/
def goAbs (p : String) : String :=
  if p.toList.headD ' ' = '/' then p else "/cwd/" ++ p

/-- Header comment CreateYAMLConfig writes before the encoded document; now
is the time.Now() value formatted as RFC 3339. -/
def yamlHeader (now : String) : String :=
  "# YOLO Dataset Configuration\n# Generated from Label Studio export\n# Generated at: "
    ++ now ++ "\n\n"

/-- Models the yaml.v3 rendering (external library, two-space indent) of the
YAMLConfig value: absolute dataset path, the two relative split paths, the
class count and the ordered class names. -/
def yamlBody (path : String) (classes : List String) : String :=
  "path: " ++ path ++ "\ntrain: images/train\nval: images/val\nnc: "
    ++ natToStr classes.length ++ "\nnames:\n"
    ++ String.join (classes.map (fun c => "  - " ++ c ++ "\n"))

/-- Full byte content CreateYAMLConfig leaves in data.yaml: the timestamped
header followed by the encoded configuration. -/
def CreateYAMLConfigContent (outputDir : String) (classes : List String)
    (now : String) : String :=
  yamlHeader now ++ yamlBody (goAbs outputDir) classes

/-- Directory creation effects of CreateYOLOStructure, in program order. -/
def mkdirEffects (out : String) : List Effect :=
  [.mkdirAll (goJoin (goJoin out "images") "train"),
   .mkdirAll (goJoin (goJoin out "images") "val"),
   .mkdirAll (goJoin (goJoin out "labels") "train"),
   .mkdirAll (goJoin (goJoin out "labels") "val")]

/-- Copy effects of CopyFiles for one subset and split label: for each
record, copy the image then the label into the corresponding leaf directory
under their base names. -/
def copyEffects (out : String) (pairs : List LabelPair) (splitType : String) :
    List Effect :=
  (pairs.map (fun p =>
    [Effect.copyFile p.ImagePath
        (goJoin (goJoin (goJoin out "images") splitType) (goBase p.ImagePath)),
     Effect.copyFile p.LabelPath
        (goJoin (goJoin (goJoin out "labels") splitType) (goBase p.LabelPath))])).flatten

/-- Embedding of Convert: the stage sequence of the orchestrator, returning
the file-system effects performed (in order) and the terminal outcome.
Effects accumulate as stages run, so an early failure shows exactly the
effects performed before it; copy and write failures of a healthy run are
not modelled (no claim depends on them). -/
def Convert (c : Config) (t : InputTree) (now : String) :
    List Effect × Option ConvErr :=
  match ValidateSourceStructure c t with
  | some e => ([], some e)
  | none =>
    match LoadClasses c t with
    | .error e => ([], some e)
    | .ok classes =>
      let pairs := GetImageLabelPairs (goJoin c.SourceDir "labels")
        t.labelExists t.walk
      if pairs.length = 0 then ([], some .emptyDataset)
      else
        let _stats := ValidateLabels t.labelFile pairs
        match SplitDataset c.TrainSplit c.Seed pairs with
        | none => ([], some .panicSliceBound)
        | some (trainPairs, valPairs) =>
          (mkdirEffects c.OutputDir
            ++ copyEffects c.OutputDir trainPairs "train"
            ++ copyEffects c.OutputDir valPairs "val"
            ++ [.writeFile (goJoin c.OutputDir "data.yaml")
                  (CreateYAMLConfigContent c.OutputDir classes now)],
           none)

/-! ## Spec-side definitions used by the claims -/

/-- All-zero statistics record. -/
def zeroStats : ValidationStats :=
  { totalFiles := 0, totalAnnotations := 0, filesWithAnnotations := 0
    emptyFiles := 0, invalidLines := 0 }

/-- Sum of the per-file contributions of a record list, used to reason about
the validation fold. -/
def sumDeltas (labelFile : String → GoFile) : List LabelPair → ValidationStats
  | [] => zeroStats
  | p :: ps => statsAdd (fileDelta (labelFile p.LabelPath)) (sumDeltas labelFile ps)

/-- A record whose label file could not be fully read: the open failed or
the scanner reported an error. -/
def unreadable (labelFile : String → GoFile) (p : LabelPair) : Bool :=
  match labelFile p.LabelPath with
  | .openErr => true
  | .content _ scanErr => scanErr

/-- Number of unreadable records in a list. -/
def unreadableCount (labelFile : String → GoFile) (pairs : List LabelPair) : Nat :=
  pairs.countP (unreadable labelFile)

/-- Spec-side acceptance condition for a non-blank label line, following the
amended claim: exactly five whitespace tokens, token 0 passes the integer
parse, and each of tokens 1 to 4 parses as a floating-point value that is
neither below 0 nor above 1 under the Go comparisons (so NaN passes, the
infinities do not). -/
def specLineAccepted (parts : List String) : Prop :=
  parts.length = 5 ∧ (∃ k, goAtoi (parts.getD 0 "") = some k) ∧
    ∀ i, 1 ≤ i → i ≤ 4 →
      ∃ v, goParseFloat (parts.getD i "") = some v ∧
        v.ltZero = false ∧ v.gtOne = false

/-- Spec-side predicate: the extension equals one of the recognized image
extensions after ignoring letter case. -/
def recognizedCI (ext : String) : Prop :=
  goToLower ext ∈ ([".jpg", ".jpeg", ".png", ".bmp", ".tiff", ".webp"] : List String)

/-- Relation between the effect traces of two runs that differ only in the
wall-clock timestamp: either the effects are equal, or both write the same
file with contents differing only in the timestamped header. -/
def timestampRel (t1 t2 : String) (a b : Effect) : Prop :=
  a = b ∨ ∃ p body,
    a = Effect.writeFile p (yamlHeader t1 ++ body) ∧
    b = Effect.writeFile p (yamlHeader t2 ++ body)

/-- Small concrete record list used by the witness instantiations. -/
def demoPairs : List LabelPair :=
  [{ ImagePath := "images/a.jpg", LabelPath := "labels/a.txt" },
   { ImagePath := "images/b.jpg", LabelPath := "labels/b.txt" },
   { ImagePath := "images/c.jpg", LabelPath := "labels/c.txt" }]

/-- Concrete configuration used by witness and counterexample
instantiations of the orchestrator claims. -/
def cfgC3 : Config :=
  { SourceDir := "/src", OutputDir := "/out", TrainSplit := 0, Seed := 1 }

/-- Concrete source tree with one matched image-label pair and an empty
label file. -/
def treeC3 : InputTree :=
  { hasImagesDir := true, hasLabelsDir := true, hasClassesFile := true
    classesRead := some ["book"]
    walk := [{ path := "/src/images/a.jpg", name := "a.jpg", isDir := false }]
    labelExists := fun p => p = "/src/labels/a.txt"
    labelFile := fun _ => GoFile.content [] false }

/-- Concrete record of the treeC3 source tree. -/
def pairC3 : LabelPair :=
  { ImagePath := "/src/images/a.jpg", LabelPath := "/src/labels/a.txt" }

/-- Concrete source tree whose required entries exist but whose images walk
finds no files at all, so pairing yields zero records. -/
def treeEmptyDemo : InputTree :=
  { hasImagesDir := true, hasLabelsDir := true, hasClassesFile := true
    classesRead := some ["book"]
    walk := []
    labelExists := fun _ => false
    labelFile := fun _ => GoFile.openErr }

/-- Concrete walk entry (a lowercase-named PNG) used by the pair-matcher
witness. -/
def entryDemo : WalkEntry :=
  { path := "images/a.png", name := "a.png", isDir := false }

/-- Label-existence oracle that reports every path as present. -/
def allLabelsExist : String → Bool := fun _ => true

/-! ## Helper lemmas: the swap-based shuffle is a permutation -/

theorem count_set_add {α : Type} [DecidableEq α] (l : List α) (i : Nat) (b : α)
    (h : i < l.length) (x : α) :
    List.count x (l.set i b) + (if l[i] = x then 1 else 0)
      = List.count x l + (if b = x then 1 else 0) := by
  induction l generalizing i with
  | nil => simp at h
  | cons c cs ih =>
    cases i with
    | zero => simp [List.count_cons]; split <;> split <;> omega
    | succ n =>
      simp only [List.set_cons_succ, List.count_cons]
      have := ih n (by simpa using h)
      simp at this ⊢
      split <;> omega

theorem swapList_length {α : Type} (l : List α) (i j : Nat) :
    (swapList l i j).length = l.length := by
  unfold swapList
  cases hi : l[i]? <;> cases hj : l[j]? <;> simp

theorem swapList_perm {α : Type} [DecidableEq α] (l : List α) (i j : Nat)
    (hi : i < l.length) (hj : j < l.length) : (swapList l i j).Perm l := by
  have hswap : swapList l i j = (l.set i l[j]).set j l[i] := by
    unfold swapList
    rw [List.getElem?_eq_getElem hi, List.getElem?_eq_getElem hj]
  rw [hswap, List.perm_iff_count]
  intro x
  have hj2 : j < (l.set i l[j]).length := by simpa using hj
  have h1 := count_set_add l i l[j] hi x
  have h2 := count_set_add (l.set i l[j]) j l[i] hj2 x
  rw [List.getElem_set] at h2
  by_cases hij : i = j
  · subst hij
    simp only [if_pos rfl] at h2
    split_ifs at h1 h2 <;> omega
  · rw [if_neg hij] at h2
    split_ifs at h1 h2 <;> omega

theorem shuffle_fold_perm {α : Type} [DecidableEq α] (idxs : List Nat) :
    ∀ (l : List α) (g : Nat), (∀ i ∈ idxs, i < l.length) →
    ((idxs.foldl
      (fun (st : List α × Nat) i =>
        let g2 := rngStep st.2
        (swapList st.1 i (rngIntn g2 (i + 1)), g2))
      (l, g)).1).Perm l := by
  induction idxs with
  | nil => intro l g _; simp
  | cons i is ih =>
    intro l g hbound
    rw [List.foldl_cons]
    have hi : i < l.length := hbound i (by simp)
    have hjlt : rngIntn (rngStep g) (i + 1) < l.length := by
      have := Nat.mod_lt (rngStep g) (Nat.succ_pos i)
      calc rngIntn (rngStep g) (i + 1) < i + 1 := this
        _ ≤ l.length := hi
    have hswap := swapList_perm l i (rngIntn (rngStep g) (i + 1)) hi hjlt
    have hrest := ih (swapList l i (rngIntn (rngStep g) (i + 1))) (rngStep g)
      (by intro k hk; rw [swapList_length]; exact hbound k (by simp [hk]))
    exact hrest.trans hswap

theorem goShuffle_perm {α : Type} [DecidableEq α] (seed : Int) (l : List α) :
    (goShuffle seed l).Perm l := by
  unfold goShuffle
  apply shuffle_fold_perm
  intro i hi
  rw [shuffleIdx, List.mem_reverse, List.mem_range'_1] at hi
  omega

theorem goShuffle_length {α : Type} (seed : Int) (l : List α) :
    (goShuffle seed l).length = l.length := by
  classical
  exact (goShuffle_perm seed l).length_eq

/-! ## C1: SplitDataset partitions the record list -/

/-- C1: for a train fraction inside the unit interval, SplitDataset succeeds
(no slice panic) and returns a train subset of floor(count times fraction)
records and a validation subset of the remaining records; their
concatenation is a permutation of the input, so as multisets the two
subsets union to the input with no record duplicated or dropped; on
duplicate-free input the two subsets are disjoint; fraction 0 gives an
empty train set and fraction 1 an empty validation set. -/
theorem splitDataset_partition (pairs : List LabelPair) (f : ℚ) (seed : Int)
    (h0 : 0 ≤ f) (h1 : f ≤ 1) :
    ∃ train val,
      SplitDataset f seed pairs = some (train, val) ∧
      train.length = (⌊(pairs.length : ℚ) * f⌋).toNat ∧
      val.length = pairs.length - train.length ∧
      (train ++ val).Perm pairs ∧
      (pairs.Nodup → train.Disjoint val) ∧
      (f = 0 → train = []) ∧
      (f = 1 → val = []) := by
  have hperm := goShuffle_perm seed pairs
  have hlen : (goShuffle seed pairs).length = pairs.length := hperm.length_eq
  have hq0 : (0 : ℚ) ≤ (pairs.length : ℚ) * f := mul_nonneg (by positivity) h0
  have hf0 : 0 ≤ ⌊(pairs.length : ℚ) * f⌋ := Int.floor_nonneg.mpr hq0
  have hfn : ⌊(pairs.length : ℚ) * f⌋ ≤ (pairs.length : Int) := by
    have hle : (pairs.length : ℚ) * f ≤ (pairs.length : ℚ) := by
      calc (pairs.length : ℚ) * f ≤ (pairs.length : ℚ) * 1 :=
        mul_le_mul_of_nonneg_left h1 (by positivity)
      _ = (pairs.length : ℚ) := mul_one _
    calc ⌊(pairs.length : ℚ) * f⌋ ≤ ⌊(pairs.length : ℚ)⌋ := Int.floor_le_floor hle
      _ = (pairs.length : Int) := Int.floor_natCast _
  have htoNat : (⌊(pairs.length : ℚ) * f⌋).toNat ≤ pairs.length := by
    omega
  have htr : goTrunc (((goShuffle seed pairs).length : ℚ) * f)
      = ⌊(pairs.length : ℚ) * f⌋ := by
    rw [hlen, goTrunc, if_pos hq0]
  have hsplit : SplitDataset f seed pairs =
      some ((goShuffle seed pairs).take (⌊(pairs.length : ℚ) * f⌋).toNat,
            (goShuffle seed pairs).drop (⌊(pairs.length : ℚ) * f⌋).toNat) := by
    simp only [SplitDataset, htr]
    rw [if_pos ⟨hf0, by rw [hlen]; exact hfn⟩]
  refine ⟨_, _, hsplit, ?_, ?_, ?_, ?_, ?_, ?_⟩
  · rw [List.length_take, hlen]
    omega
  · rw [List.length_take, List.length_drop, hlen]
    omega
  · rw [List.take_append_drop]
    exact hperm
  · intro hnd
    have hshuf : (goShuffle seed pairs).Nodup := hperm.nodup_iff.mpr hnd
    rw [← List.take_append_drop (⌊(pairs.length : ℚ) * f⌋).toNat
      (goShuffle seed pairs)] at hshuf
    exact (List.nodup_append.mp hshuf).2.2
  · intro hz
    subst hz
    simp
  · intro ho
    subst ho
    have : (⌊(pairs.length : ℚ) * 1⌋).toNat = (goShuffle seed pairs).length := by
      rw [mul_one, Int.floor_natCast, hlen]
      omega
    rw [this, List.drop_length]

/-- Witness for C1 at the concrete record list demoPairs, fraction one half
and seed 42. -/
theorem splitDataset_partition_witness :
    (0 : ℚ) ≤ 1 / 2 ∧ (1 / 2 : ℚ) ≤ 1 ∧
    (∃ train val,
      SplitDataset (1 / 2) 42 demoPairs = some (train, val) ∧
      train.length = (⌊(demoPairs.length : ℚ) * (1 / 2)⌋).toNat ∧
      val.length = demoPairs.length - train.length ∧
      (train ++ val).Perm demoPairs ∧
      (demoPairs.Nodup → train.Disjoint val) ∧
      ((1 / 2 : ℚ) = 0 → train = []) ∧
      ((1 / 2 : ℚ) = 1 → val = [])) :=
  ⟨by norm_num, by norm_num,
    splitDataset_partition demoPairs (1 / 2) 42 (by norm_num) (by norm_num)⟩

/-! ## C4: SplitDataset is deterministic -/

/-- C4: SplitDataset is a pure function of the record list, the train
fraction and the seed: two converters agreeing on TrainSplit and Seed
return identical train and validation subsets (same records, same relative
order) on the same input list, whatever their other configuration fields;
no external entropy enters the embedded generator. -/
theorem splitDataset_deterministic (c1 c2 : Config) (pairs : List LabelPair)
    (hf : c1.TrainSplit = c2.TrainSplit) (hs : c1.Seed = c2.Seed) :
    SplitDatasetC c1 pairs = SplitDatasetC c2 pairs := by
  unfold SplitDatasetC
  rw [hf, hs]

/-- Witness for C4: two configurations differing in every field except
TrainSplit and Seed split demoPairs identically. -/
theorem splitDataset_deterministic_witness :
    SplitDatasetC
        { SourceDir := "/data/a", OutputDir := "/out/a",
          TrainSplit := 4 / 5, Seed := 42 } demoPairs
      = SplitDatasetC
        { SourceDir := "/data/b", OutputDir := "/out/b",
          TrainSplit := 4 / 5, Seed := 42 } demoPairs :=
  splitDataset_deterministic _ _ demoPairs rfl rfl

/-! ## C5: unvalidated train fraction -/

/-- Counterexample to C5 as stated: the fraction minus one tenth lies
outside the unit interval and the record list is non-empty, yet trainCount
is int(1 times minus one tenth) = 0, inside the valid slice range, so the
slicing succeeds instead of being out of bounds. -/
theorem splitDataset_small_negative_fraction_in_bounds :
    SplitDataset (-1 / 10) 7
        [{ ImagePath := "images/a.jpg", LabelPath := "labels/a.txt" }]
      = some ([], [{ ImagePath := "images/a.jpg", LabelPath := "labels/a.txt" }]) := by
  have hsh : goShuffle (α := LabelPair) 7
      [{ ImagePath := "images/a.jpg", LabelPath := "labels/a.txt" }]
      = [{ ImagePath := "images/a.jpg", LabelPath := "labels/a.txt" }] := rfl
  have htr : goTrunc (-(1 / 10) : ℚ) = 0 := by
    rw [goTrunc, if_neg (by norm_num)]
    norm_num
  simp only [SplitDataset, hsh, List.length_cons, List.length_nil]
  norm_num [htr]

/-- C5 amended: SplitDataset applies no fraction validation; trainCount is
the truncation toward zero of count times fraction, the slicing panics
(modelled by the none result) exactly when that value falls outside the
closed range 0 to count, a negative fraction panics once count times
fraction reaches minus one, a fraction above one panics once count times
fraction reaches count plus one, and a fraction inside the unit interval
never panics. Small excursions (for example fraction minus one tenth with
four records) truncate back into the valid range. -/
theorem splitDataset_oob_characterization (f : ℚ) (seed : Int)
    (pairs : List LabelPair) :
    (SplitDataset f seed pairs = none ↔
      goTrunc ((pairs.length : ℚ) * f) < 0 ∨
        (pairs.length : Int) < goTrunc ((pairs.length : ℚ) * f)) ∧
    (f < 0 → (pairs.length : ℚ) * f ≤ -1 → SplitDataset f seed pairs = none) ∧
    (1 < f → (pairs.length : ℚ) + 1 ≤ (pairs.length : ℚ) * f →
      SplitDataset f seed pairs = none) ∧
    (0 ≤ f → f ≤ 1 → SplitDataset f seed pairs ≠ none) := by
  have hlen : (goShuffle seed pairs).length = pairs.length := by
    classical
    exact (goShuffle_perm seed pairs).length_eq
  have hmain : SplitDataset f seed pairs = none ↔
      goTrunc ((pairs.length : ℚ) * f) < 0 ∨
        (pairs.length : Int) < goTrunc ((pairs.length : ℚ) * f) := by
    simp only [SplitDataset, hlen]
    by_cases h : 0 ≤ goTrunc ((pairs.length : ℚ) * f) ∧
        goTrunc ((pairs.length : ℚ) * f) ≤ (pairs.length : Int)
    · rw [if_pos h]
      simp only [reduceCtorEq, false_iff]
      omega
    · rw [if_neg h]
      simp only [true_iff]
      omega
  refine ⟨hmain, ?_, ?_, ?_⟩
  · intro _ hle
    rw [hmain]
    left
    have hneg : ¬ (0 : ℚ) ≤ (pairs.length : ℚ) * f := by
      intro hc
      linarith
    rw [goTrunc, if_neg hneg]
    have : ⌈(pairs.length : ℚ) * f⌉ ≤ (-1 : Int) := by
      rw [Int.ceil_le]
      exact_mod_cast hle
    omega
  · intro _ hge
    rw [hmain]
    right
    have hpos : (0 : ℚ) ≤ (pairs.length : ℚ) * f := by
      have : (0 : ℚ) ≤ (pairs.length : ℚ) := by positivity
      linarith
    rw [goTrunc, if_pos hpos]
    have : ((pairs.length : Int) + 1 : Int) ≤ ⌊(pairs.length : ℚ) * f⌋ := by
      rw [Int.le_floor]
      push_cast
      exact hge
    omega
  · intro h0 h1
    rw [Ne, hmain]
    have hq0 : (0 : ℚ) ≤ (pairs.length : ℚ) * f := mul_nonneg (by positivity) h0
    have hf0 : 0 ≤ ⌊(pairs.length : ℚ) * f⌋ := Int.floor_nonneg.mpr hq0
    have hfn : ⌊(pairs.length : ℚ) * f⌋ ≤ (pairs.length : Int) := by
      have hle : (pairs.length : ℚ) * f ≤ (pairs.length : ℚ) := by
        calc (pairs.length : ℚ) * f ≤ (pairs.length : ℚ) * 1 :=
          mul_le_mul_of_nonneg_left h1 (by positivity)
        _ = (pairs.length : ℚ) := mul_one _
      calc ⌊(pairs.length : ℚ) * f⌋ ≤ ⌊(pairs.length : ℚ)⌋ := Int.floor_le_floor hle
        _ = (pairs.length : Int) := Int.floor_natCast _
    rw [goTrunc, if_pos hq0]
    omega

/-! ## C10: the caller-visible input list is untouched -/

/-- The shuffle loop on the explicit memory state never writes the caller
slice and drives the shuffled buffer exactly as the plain shuffle fold. -/
theorem splitSwap_fold_eq (idxs : List Nat) :
    ∀ (m : SplitMem) (g : Nat),
      ((idxs.foldl splitSwapStep (m, g)).1).caller = m.caller ∧
      ((idxs.foldl splitSwapStep (m, g)).1).shuffled
        = ((idxs.foldl
            (fun (st : List LabelPair × Nat) i =>
              let g2 := rngStep st.2
              (swapList st.1 i (rngIntn g2 (i + 1)), g2))
            (m.shuffled, g)).1) := by
  induction idxs with
  | nil => intro m g; exact ⟨rfl, rfl⟩
  | cons i is ih =>
    intro m g
    rw [List.foldl_cons, List.foldl_cons]
    exact ih _ _

/-- C10: SplitDataset leaves the input record list unchanged: in the memory
model where the shuffle swaps target the freshly copied buffer, the slice
the caller passed in holds the same records in the same order after the
call, and the returned subsets agree with the plain SplitDataset
function. -/
theorem splitDataset_preserves_input (f : ℚ) (seed : Int)
    (pairs : List LabelPair) :
    (splitDatasetMem f seed pairs).1.caller = pairs ∧
    (splitDatasetMem f seed pairs).2 = SplitDataset f seed pairs := by
  obtain ⟨h1, h2⟩ := splitSwap_fold_eq (shuffleIdx pairs.length)
    { caller := pairs, shuffled := pairs } (rngInit seed)
  constructor
  · exact h1
  · simp only [splitDatasetMem, SplitDataset, goShuffle, h2]

/-! ## Helper lemmas: the validation fold as a sum of file contributions -/

theorem statsAdd_zero (s : ValidationStats) : statsAdd s zeroStats = s := by
  simp [statsAdd, zeroStats]

theorem statsAdd_assoc (a b c : ValidationStats) :
    statsAdd (statsAdd a b) c = statsAdd a (statsAdd b c) := by
  simp [statsAdd, Nat.add_assoc]

theorem validate_foldl_eq (lf : String → GoFile) (ps : List LabelPair) :
    ∀ init, ps.foldl (fun st p => statsAdd st (fileDelta (lf p.LabelPath))) init
      = statsAdd init (sumDeltas lf ps) := by
  induction ps with
  | nil => intro init; rw [List.foldl_nil, sumDeltas, statsAdd_zero]
  | cons p ps ih =>
    intro init
    rw [List.foldl_cons, ih, sumDeltas, ← statsAdd_assoc]

theorem validateLabels_eq (lf : String → GoFile) (pairs : List LabelPair) :
    ValidateLabels lf pairs
      = statsAdd
          { totalFiles := pairs.length, totalAnnotations := 0
            filesWithAnnotations := 0, emptyFiles := 0, invalidLines := 0 }
          (sumDeltas lf pairs) :=
  validate_foldl_eq lf pairs _

theorem sumDeltas_append (lf : String → GoFile) (l1 l2 : List LabelPair) :
    sumDeltas lf (l1 ++ l2) = statsAdd (sumDeltas lf l1) (sumDeltas lf l2) := by
  induction l1 with
  | nil =>
    simp only [List.nil_append, sumDeltas]
    simp [statsAdd, zeroStats]
  | cons p ps ih =>
    have h : (p :: ps) ++ l2 = p :: (ps ++ l2) := rfl
    rw [h, sumDeltas, ih, sumDeltas, statsAdd_assoc]

/-! ## C8: a failed label-file open is non-fatal -/

/-- C8: a record whose label file fails to open contributes exactly one to
the invalid-line counter (and one to the file total), leaves every other
counter as if the record were absent, processing continues with the other
records, and ValidateLabels still returns its statistics with a nil
error. -/
theorem validateLabels_open_failure_nonfatal (lf : String → GoFile)
    (l1 l2 : List LabelPair) (p : LabelPair)
    (hopen : lf p.LabelPath = GoFile.openErr) :
    ValidateLabels lf (l1 ++ p :: l2)
      = { ValidateLabels lf (l1 ++ l2) with
          totalFiles := (ValidateLabels lf (l1 ++ l2)).totalFiles + 1
          invalidLines := (ValidateLabels lf (l1 ++ l2)).invalidLines + 1 } ∧
    ValidateLabelsGo lf (l1 ++ p :: l2)
      = (ValidateLabels lf (l1 ++ p :: l2), none) := by
  refine ⟨?_, rfl⟩
  have e1 := validateLabels_eq lf (l1 ++ p :: l2)
  have e2 := validateLabels_eq lf (l1 ++ l2)
  rw [sumDeltas_append] at e1 e2
  rw [e1, e2]
  simp only [sumDeltas, hopen, fileDelta, statsAdd, List.length_append,
    List.length_cons]
  simp only [ValidationStats.mk.injEq]
  omega

/-- Witness for C8 at a concrete record list whose middle label file fails
to open. -/
theorem validateLabels_open_failure_nonfatal_witness :
    (fun _ => GoFile.openErr) ("labels/b.txt" : String) = GoFile.openErr ∧
    (ValidateLabels (fun _ => GoFile.openErr)
        ([{ ImagePath := "images/a.jpg", LabelPath := "labels/a.txt" }]
          ++ { ImagePath := "images/b.jpg", LabelPath := "labels/b.txt" }
          :: [{ ImagePath := "images/c.jpg", LabelPath := "labels/c.txt" }])
      = { ValidateLabels (fun _ => GoFile.openErr)
            ([{ ImagePath := "images/a.jpg", LabelPath := "labels/a.txt" }]
              ++ [{ ImagePath := "images/c.jpg", LabelPath := "labels/c.txt" }]) with
          totalFiles := (ValidateLabels (fun _ => GoFile.openErr)
            ([{ ImagePath := "images/a.jpg", LabelPath := "labels/a.txt" }]
              ++ [{ ImagePath := "images/c.jpg", LabelPath := "labels/c.txt" }])).totalFiles + 1
          invalidLines := (ValidateLabels (fun _ => GoFile.openErr)
            ([{ ImagePath := "images/a.jpg", LabelPath := "labels/a.txt" }]
              ++ [{ ImagePath := "images/c.jpg", LabelPath := "labels/c.txt" }])).invalidLines + 1 } ∧
      ValidateLabelsGo (fun _ => GoFile.openErr)
          ([{ ImagePath := "images/a.jpg", LabelPath := "labels/a.txt" }]
            ++ { ImagePath := "images/b.jpg", LabelPath := "labels/b.txt" }
            :: [{ ImagePath := "images/c.jpg", LabelPath := "labels/c.txt" }])
        = (ValidateLabels (fun _ => GoFile.openErr)
            ([{ ImagePath := "images/a.jpg", LabelPath := "labels/a.txt" }]
              ++ { ImagePath := "images/b.jpg", LabelPath := "labels/b.txt" }
              :: [{ ImagePath := "images/c.jpg", LabelPath := "labels/c.txt" }]), none)) :=
  ⟨rfl, validateLabels_open_failure_nonfatal (fun _ => GoFile.openErr) _ _ _ rfl⟩

/-! ## C9: annotated plus empty plus unreadable equals total -/

/-- C9: after ValidateLabels, files with annotations plus empty files plus
unreadable files (failed open or scanner error) equals the file total; in
particular when every label file opened and scanned cleanly, files with
annotations plus empty files equals the file total exactly. -/
theorem validateLabels_file_count_invariant (lf : String → GoFile)
    (pairs : List LabelPair) :
    (ValidateLabels lf pairs).filesWithAnnotations
        + (ValidateLabels lf pairs).emptyFiles
        + unreadableCount lf pairs
      = (ValidateLabels lf pairs).totalFiles ∧
    (unreadableCount lf pairs = 0 →
      (ValidateLabels lf pairs).filesWithAnnotations
          + (ValidateLabels lf pairs).emptyFiles
        = (ValidateLabels lf pairs).totalFiles) := by
  have hfd : ∀ f : GoFile,
      (fileDelta f).filesWithAnnotations + (fileDelta f).emptyFiles
          + (if (match f with
                 | GoFile.openErr => true
                 | GoFile.content _ se => se) then 1 else 0) = 1 ∧
      (fileDelta f).totalFiles = 0 := by
    intro f
    cases f with
    | openErr => simp [fileDelta]
    | content lines scanErr =>
      cases scanErr with
      | true => simp [fileDelta]
      | false =>
        simp only [fileDelta]
        constructor
        · simp only [Bool.false_eq_true, if_false]
          split_ifs <;> omega
        · rfl
  have key : ∀ ps : List LabelPair,
      (sumDeltas lf ps).filesWithAnnotations + (sumDeltas lf ps).emptyFiles
          + unreadableCount lf ps = ps.length ∧
      (sumDeltas lf ps).totalFiles = 0 := by
    intro ps
    induction ps with
    | nil => simp [sumDeltas, zeroStats, unreadableCount]
    | cons p ps ih =>
      have hcount : unreadableCount lf (p :: ps)
          = unreadableCount lf ps + if unreadable lf p then 1 else 0 :=
        List.countP_cons _ _ _
      have hone := hfd (lf p.LabelPath)
      have hu : unreadable lf p
          = (match lf p.LabelPath with
             | GoFile.openErr => true
             | GoFile.content _ se => se) := rfl
      rw [hu] at hcount
      rw [sumDeltas, hcount, List.length_cons]
      simp only [statsAdd]
      omega
  have hk := key pairs
  rw [validateLabels_eq]
  simp only [statsAdd]
  constructor
  · omega
  · intro hz
    omega

/-- Witness for C9 at a concrete list with one clean empty file, one
annotated file and one unreadable file. -/
theorem validateLabels_file_count_invariant_witness :
    (ValidateLabels (fun p => if p = "labels/a.txt" then GoFile.openErr
        else if p = "labels/b.txt" then GoFile.content ["0 0.5 0.5 0.5 0.5"] false
        else GoFile.content [] false) demoPairs).filesWithAnnotations
        + (ValidateLabels (fun p => if p = "labels/a.txt" then GoFile.openErr
            else if p = "labels/b.txt" then GoFile.content ["0 0.5 0.5 0.5 0.5"] false
            else GoFile.content [] false) demoPairs).emptyFiles
        + unreadableCount (fun p => if p = "labels/a.txt" then GoFile.openErr
            else if p = "labels/b.txt" then GoFile.content ["0 0.5 0.5 0.5 0.5"] false
            else GoFile.content [] false) demoPairs
      = (ValidateLabels (fun p => if p = "labels/a.txt" then GoFile.openErr
          else if p = "labels/b.txt" then GoFile.content ["0 0.5 0.5 0.5 0.5"] false
          else GoFile.content [] false) demoPairs).totalFiles :=
  (validateLabels_file_count_invariant _ demoPairs).1

/-! ## C2: characterization of the per-line validation -/

theorem list_eq_five {α : Type} (l : List α) (h : l.length = 5) :
    ∃ a b c d e, l = [a, b, c, d, e] := by
  obtain ⟨a, l, rfl⟩ := List.exists_of_length_succ l h
  have h1 : l.length = 4 := by simp only [List.length_cons] at h; omega
  obtain ⟨b, l, rfl⟩ := List.exists_of_length_succ l h1
  have h2 : l.length = 3 := by simp only [List.length_cons] at h1; omega
  obtain ⟨c, l, rfl⟩ := List.exists_of_length_succ l h2
  have h3 : l.length = 2 := by simp only [List.length_cons] at h2; omega
  obtain ⟨d, l, rfl⟩ := List.exists_of_length_succ l h3
  have h4 : l.length = 1 := by simp only [List.length_cons] at h3; omega
  obtain ⟨e, l, rfl⟩ := List.exists_of_length_succ l h4
  have h5 : l.length = 0 := by simp only [List.length_cons] at h4; omega
  rw [List.length_eq_zero] at h5
  subst h5
  exact ⟨a, b, c, d, e, rfl⟩

theorem coordsOk_iff (ts : List String) :
    coordsOk ts = true ↔
      ∀ t ∈ ts, ∃ v, goParseFloat t = some v ∧
        v.ltZero = false ∧ v.gtOne = false := by
  induction ts with
  | nil => simp [coordsOk]
  | cons t ts ih =>
    cases hp : goParseFloat t with
    | none =>
      simp only [coordsOk, hp, List.mem_cons, Bool.false_eq_true, false_iff]
      intro h
      obtain ⟨v, hv, _, _⟩ := h t (Or.inl rfl)
      rw [hp] at hv
      exact Option.noConfusion hv
    | some v =>
      by_cases hb : (v.ltZero || v.gtOne) = true
      · simp only [coordsOk, hp, hb, if_true, List.mem_cons,
          Bool.false_eq_true, false_iff]
        intro h
        obtain ⟨w, hw, h1, h2⟩ := h t (Or.inl rfl)
        rw [hp] at hw
        obtain rfl : v = w := Option.some.inj hw
        rw [h1, h2] at hb
        exact Bool.noConfusion hb
      · have hb2 : v.ltZero = false ∧ v.gtOne = false := by
          cases h1 : v.ltZero <;> cases h2 : v.gtOne <;>
            rw [h1, h2] at hb <;> simp_all
        simp only [coordsOk, hp]
        rw [if_neg hb, ih]
        simp only [List.mem_cons]
        constructor
        · intro h x hx
          rcases hx with rfl | hx
          · exact ⟨v, hp, hb2.1, hb2.2⟩
          · exact h x hx
        · intro h x hx
          exact h x (Or.inr hx)

/-- C2 amended: a blank line counts neither valid nor invalid; a non-blank
line counts valid exactly when it has five whitespace tokens, token 0
passes the integer parse, and tokens 1 to 4 each parse as floating-point
values rejected by neither Go comparison (below 0 or above 1, both false
on NaN, so NaN is accepted while the infinities are rejected); otherwise it
counts invalid; and every line increments the invalid counter at most
once, the first violating coordinate short-circuiting the rest. -/
theorem lineDelta_characterization (raw : String) :
    (lineDelta raw).2 ≤ 1 ∧
    (goTrimSpace raw = "" → lineDelta raw = (0, 0)) ∧
    (goTrimSpace raw ≠ "" →
      ((lineDelta raw = (1, 0) ↔ specLineAccepted (goFields (goTrimSpace raw))) ∧
       (lineDelta raw = (0, 1) ↔
         ¬ specLineAccepted (goFields (goTrimSpace raw))))) := by
  by_cases hb : goTrimSpace raw = ""
  · have hz : lineDelta raw = (0, 0) := by
      simp only [lineDelta]
      rw [if_pos hb]
    exact ⟨by simp [hz], fun _ => hz, fun hne => absurd hb hne⟩
  · have hld : lineDelta raw =
        (if (goFields (goTrimSpace raw)).length ≠ 5 then (0, 1)
         else if (goAtoi ((goFields (goTrimSpace raw)).getD 0 "")).isNone then (0, 1)
         else if coordsOk ((goFields (goTrimSpace raw)).drop 1) then (1, 0)
         else (0, 1)) := by
      simp only [lineDelta]
      rw [if_neg hb]
    by_cases h5 : (goFields (goTrimSpace raw)).length = 5
    · obtain ⟨a, b2, c2, d2, e2, hpe⟩ := list_eq_five _ h5
      rw [hpe] at hld
      cases hA : goAtoi a with
      | none =>
        have hx : lineDelta raw = (0, 1) := by
          rw [hld, if_neg (by simp), if_pos (by simp [hA])]
        have hnospec : ¬ specLineAccepted (goFields (goTrimSpace raw)) := by
          rw [hpe]
          rintro ⟨-, ⟨k, hk⟩, -⟩
          rw [show (([a, b2, c2, d2, e2] : List String).getD 0 "") = a from rfl,
            hA] at hk
          exact Option.noConfusion hk
        refine ⟨by simp [hx], fun h => absurd h hb, fun _ => ⟨?_, ?_⟩⟩
        · rw [hx]
          exact ⟨fun h => absurd h (by decide), fun hs => absurd hs hnospec⟩
        · rw [hx]
          exact ⟨fun _ => hnospec, fun _ => rfl⟩
      | some k =>
        have hnotNone :
            ¬ (goAtoi (([a, b2, c2, d2, e2] : List String).getD 0 "")).isNone = true := by
          simp [hA]
        have hdrop : ([a, b2, c2, d2, e2] : List String).drop 1 = [b2, c2, d2, e2] := rfl
        have hspec : specLineAccepted [a, b2, c2, d2, e2] ↔
            coordsOk [b2, c2, d2, e2] = true := by
          rw [coordsOk_iff]
          unfold specLineAccepted
          constructor
          · rintro ⟨-, -, hco⟩ t ht
            simp only [List.mem_cons, List.not_mem_nil, or_false] at ht
            rcases ht with rfl | rfl | rfl | rfl
            · exact hco 1 (by norm_num) (by norm_num)
            · exact hco 2 (by norm_num) (by norm_num)
            · exact hco 3 (by norm_num) (by norm_num)
            · exact hco 4 (by norm_num) (by norm_num)
          · intro h
            refine ⟨by simp, ⟨k, hA⟩, ?_⟩
            intro i h1 h4
            interval_cases i
            · exact h b2 (by simp)
            · exact h c2 (by simp)
            · exact h d2 (by simp)
            · exact h e2 (by simp)
        cases hco : coordsOk [b2, c2, d2, e2] with
        | true =>
          have hx : lineDelta raw = (1, 0) := by
            rw [hld, if_neg (by simp), if_neg hnotNone, hdrop, if_pos hco]
          have hsp : specLineAccepted (goFields (goTrimSpace raw)) := by
            rw [hpe, hspec]
            exact hco
          refine ⟨by simp [hx], fun h => absurd h hb, fun _ => ⟨?_, ?_⟩⟩
          · simp [hx, hsp]
          · rw [hx]
            exact ⟨fun h => absurd h (by decide), fun hn => absurd hsp hn⟩
        | false =>
          have hx : lineDelta raw = (0, 1) := by
            rw [hld, if_neg (by simp), if_neg hnotNone, hdrop,
              if_neg (by simp [hco])]
          have hsp : ¬ specLineAccepted (goFields (goTrimSpace raw)) := by
            rw [hpe, hspec, hco]
            exact fun h => Bool.noConfusion h
          refine ⟨by simp [hx], fun h => absurd h hb, fun _ => ⟨?_, ?_⟩⟩
          · rw [hx]
            exact ⟨fun h => absurd h (by decide), fun hs => absurd hs hsp⟩
          · rw [hx]
            exact ⟨fun _ => hsp, fun _ => rfl⟩
    · have hx : lineDelta raw = (0, 1) := by
        rw [hld, if_pos h5]
      have hnospec : ¬ specLineAccepted (goFields (goTrimSpace raw)) := by
        rintro ⟨hl, -, -⟩
        exact h5 hl
      refine ⟨by simp [hx], fun h => absurd h hb, fun _ => ⟨?_, ?_⟩⟩
      · rw [hx]
        exact ⟨fun h => absurd h (by decide), fun hs => absurd hs hnospec⟩
      · rw [hx]
        exact ⟨fun _ => hnospec, fun _ => rfl⟩

/-- Witness for C2 at a concrete well-formed line with integer class id and
four in-range coordinates. -/
theorem lineDelta_characterization_witness :
    goTrimSpace "0 0.5 0.5 0.25 1" ≠ "" ∧
    lineDelta "0 0.5 0.5 0.25 1" = (1, 0) ∧
    specLineAccepted (goFields (goTrimSpace "0 0.5 0.5 0.25 1")) := by
  have h := (lineDelta_characterization "0 0.5 0.5 0.25 1").2.2 (by decide)
  have hd : lineDelta "0 0.5 0.5 0.25 1" = (1, 0) := by decide
  exact ⟨by decide, hd, (h.1).mp hd⟩

/-- Counterexample to C2 as stated: the line with the NaN coordinate token
is counted valid (one valid-line increment, no invalid-line increment)
although NaN does not parse as a finite floating-point number inside the
closed unit interval; both Go range comparisons are false on NaN, so the
out-of-range branch is never taken. -/
theorem validateLine_nan_counted_valid :
    lineDelta "0 NaN 0.5 0.5 0.5" = (1, 0) ∧
    goParseFloat "NaN" = some GoFloat.nan ∧
    GoFloat.finiteInUnit GoFloat.nan = false ∧
    GoFloat.ltZero GoFloat.nan = false ∧
    GoFloat.gtOne GoFloat.nan = false := by
  decide

/-! ## C6: the extension test of the pair matcher -/

theorem recognizedCI_iff (ext : String) :
    recognizedCI ext ↔ imageExtensions (goToLower ext) = true := by
  unfold recognizedCI imageExtensions
  simp [decide_eq_true_eq]

/-- Counterexample to C6 as stated: the image photo.JPG, whose extension is
recognized only after ignoring letter case, passes the extension test (the
code lowercases the extension before the lookup) and IS included in the
Record set when the label file the code derives for it, labels
slash photo.JPG.txt, exists. -/
theorem pairMatcher_uppercase_included :
    imageExtensions (goToLower (goExt "photo.JPG")) = true ∧
    GetImageLabelPairs "labels" (fun p => p = "labels/photo.JPG.txt")
        [{ path := "images/photo.JPG", name := "photo.JPG", isDir := false }]
      = [{ ImagePath := "images/photo.JPG",
           LabelPath := "labels/photo.JPG.txt" }] := by
  decide

/-- C6 amended: the extension test is case-insensitive (the extension is
lowercased before the membership test), so an image whose extension matches
a recognized extension up to case passes it; the record is produced exactly
when the derived label path exists, where the base name is the file name
with the lowercased extension stripped as a case-sensitive suffix (for
photo.JPG nothing is stripped, so the derived label is labels slash
photo.JPG.txt, and with a conventional labels directory holding only
photo.txt the image is skipped for the missing label, not for its
extension). -/
theorem pairMatcher_membership (labelsDir : String) (labelExists : String → Bool)
    (e : WalkEntry) (he : e.isDir = false) :
    ((pairOfEntry labelsDir labelExists e).isSome = true ↔
      (recognizedCI (goExt e.name) ∧
        labelExists (goJoin labelsDir
          (goTrimSuffix e.name (goToLower (goExt e.name)) ++ ".txt")) = true)) ∧
    (∀ pr, pairOfEntry labelsDir labelExists e = some pr →
      pr = { ImagePath := e.path,
             LabelPath := goJoin labelsDir
               (goTrimSuffix e.name (goToLower (goExt e.name)) ++ ".txt") }) := by
  rw [recognizedCI_iff]
  simp only [pairOfEntry, he, Bool.false_eq_true, if_false]
  by_cases hext : imageExtensions (goToLower (goExt e.name)) = true
  · rw [if_neg (by simp [hext])]
    by_cases hlab : labelExists (goJoin labelsDir
        (goTrimSuffix e.name (goToLower (goExt e.name)) ++ ".txt")) = true
    · rw [if_pos hlab]
      refine ⟨by simp [hext, hlab], ?_⟩
      intro pr hpr
      exact (Option.some.inj hpr).symm
    · rw [if_neg hlab]
      refine ⟨by simp [hlab], ?_⟩
      intro pr hpr
      exact absurd hpr (by simp)
  · rw [if_pos (by simp [hext])]
    refine ⟨by simp [hext], ?_⟩
    intro pr hpr
    exact absurd hpr (by simp)

/-- Witness for C6 at a concrete lowercase-named image with an existing
label. -/
theorem pairMatcher_membership_witness :
    entryDemo.isDir = false ∧
    ((pairOfEntry "labels" allLabelsExist entryDemo).isSome = true ↔
      (recognizedCI (goExt entryDemo.name) ∧
        allLabelsExist (goJoin "labels"
          (goTrimSuffix entryDemo.name (goToLower (goExt entryDemo.name))
            ++ ".txt")) = true)) :=
  ⟨rfl, (pairMatcher_membership "labels" allLabelsExist entryDemo rfl).1⟩

/-! ## C7: empty record set aborts before any output -/

/-- C7: when the source structure is valid, the class file loads, and pair
matching finds zero records, Convert terminates with the empty-dataset
error having performed no file-system write effect at all: no output
directory is created and no file is copied or written. -/
theorem convert_empty_pairs_no_output (c : Config) (t : InputTree) (now : String)
    (hsrc : ValidateSourceStructure c t = none)
    (hcls : ∃ cls, LoadClasses c t = .ok cls)
    (hpairs : GetImageLabelPairs (goJoin c.SourceDir "labels")
      t.labelExists t.walk = []) :
    Convert c t now = ([], some ConvErr.emptyDataset) := by
  obtain ⟨cls, hc⟩ := hcls
  simp only [Convert, hsrc, hc, hpairs]
  simp

/-- Witness for C7 at the concrete tree whose images walk is empty. -/
theorem convert_empty_pairs_no_output_witness :
    ValidateSourceStructure cfgC3 treeEmptyDemo = none ∧
    (∃ cls, LoadClasses cfgC3 treeEmptyDemo = .ok cls) ∧
    GetImageLabelPairs (goJoin cfgC3.SourceDir "labels")
        treeEmptyDemo.labelExists treeEmptyDemo.walk = [] ∧
    Convert cfgC3 treeEmptyDemo "2025-09-22T00:00:00Z"
      = ([], some ConvErr.emptyDataset) :=
  ⟨rfl, ⟨["book"], rfl⟩, rfl,
    convert_empty_pairs_no_output cfgC3 treeEmptyDemo _ rfl ⟨["book"], rfl⟩ rfl⟩

/-! ## C3: two runs differ exactly in the config timestamp -/

/-- Counterexample to C3 as stated: with a fixed source tree, output path,
train fraction and seed, two Convert runs at different wall-clock times
produce different output trees, because CreateYAMLConfig embeds the
generation time in the header of data.yaml. -/
theorem convert_output_depends_on_time :
    Convert cfgC3 treeC3 "2025-01-01T00:00:00Z"
      ≠ Convert cfgC3 treeC3 "2025-01-02T00:00:00Z" := by
  have hsh : goShuffle (α := LabelPair) 1 [pairC3] = [pairC3] := rfl
  have htr : goTrunc 0 = 0 := by
    rw [goTrunc, if_pos le_rfl]
    exact Int.floor_zero
  have hsplit : SplitDataset 0 1 [pairC3] = some ([], [pairC3]) := by
    simp only [SplitDataset, hsh, List.length_cons, List.length_nil]
    norm_num [htr]
  have hc : ∀ now, Convert cfgC3 treeC3 now =
      (mkdirEffects "/out" ++ copyEffects "/out" [] "train"
        ++ copyEffects "/out" [pairC3] "val"
        ++ [Effect.writeFile "/out/data.yaml"
              (CreateYAMLConfigContent "/out" ["book"] now)], none) := by
    intro now
    have hv : ValidateSourceStructure cfgC3 treeC3 = none := rfl
    have hl : LoadClasses cfgC3 treeC3 = .ok ["book"] := rfl
    have hp : GetImageLabelPairs (goJoin cfgC3.SourceDir "labels")
        treeC3.labelExists treeC3.walk = [pairC3] := rfl
    simp only [Convert, hv, hl, hp]
    rw [if_neg (by simp)]
    rw [show cfgC3.TrainSplit = 0 from rfl, show cfgC3.Seed = 1 from rfl, hsplit]
    exact rfl
  rw [hc, hc]
  decide

/-- C3 amended: two Convert runs with identical source tree, configuration
and seed produce the same terminal outcome and effect sequences that agree
pointwise except for the single data.yaml write, whose bytes differ only in
the timestamped header line; every directory creation and every copied
file is identical. -/
theorem convert_deterministic_up_to_timestamp (c : Config) (t : InputTree)
    (t1 t2 : String) :
    (Convert c t t1).2 = (Convert c t t2).2 ∧
    List.Forall₂ (timestampRel t1 t2) (Convert c t t1).1 (Convert c t t2).1 := by
  cases hv : ValidateSourceStructure c t with
  | some e =>
    simp only [Convert, hv]
    exact ⟨trivial, List.Forall₂.nil⟩
  | none =>
    cases hl : LoadClasses c t with
    | error e =>
      simp only [Convert, hv, hl]
      exact ⟨trivial, List.Forall₂.nil⟩
    | ok classes =>
      by_cases hp : (GetImageLabelPairs (goJoin c.SourceDir "labels")
          t.labelExists t.walk).length = 0
      · simp only [Convert, hv, hl, if_pos hp]
        exact ⟨trivial, List.Forall₂.nil⟩
      · cases hs : SplitDataset c.TrainSplit c.Seed
            (GetImageLabelPairs (goJoin c.SourceDir "labels")
              t.labelExists t.walk) with
        | none =>
          simp only [Convert, hv, hl, if_neg hp, hs]
          exact ⟨trivial, List.Forall₂.nil⟩
        | some tv =>
          obtain ⟨tr, va⟩ := tv
          simp only [Convert, hv, hl, if_neg hp, hs]
          refine ⟨trivial, ?_⟩
          refine List.rel_append ?_ (List.Forall₂.cons (Or.inr ?_) List.Forall₂.nil)
          · exact List.forall₂_same.mpr fun x _ => Or.inl rfl
          · exact ⟨goJoin c.OutputDir "data.yaml",
              yamlBody (goAbs c.OutputDir) classes, rfl, rfl⟩

end LS2YOLO
